import Mathlib

/-!
Verification of the go4x/mathx decimal arithmetic library.

The library represents numbers as `shopspring/decimal` values: an arbitrary
precision integer coefficient `value` together with a base-ten exponent
`exp`, denoting `value * 10^exp`.  The repository's own code (math.go and
its overlapping variant files) is a thin layer over that representation.
The embedding below reproduces the decimal layer's arithmetic exactly:
`big.Int.Quo`/`Rem` are truncated division (`Int.tdiv`/`Int.tmod`),
`big.Int.DivMod` is Euclidean division (`Int.ediv`/`Int.emod`), and the
rescaling, rounding and string-rendering code paths follow the library
line by line.  Machine floats appear only at the API boundary: a float64
argument is modelled by the decimal literal `m * 10^e` it was written as
(see `decimal.NewFromFloat` for the justification).
-/

/-- A decimal number `value * 10^exp`, mirroring `shopspring/decimal.Decimal`
(an arbitrary-precision integer coefficient and a base-ten exponent). -/
structure Dec where
  value : Int
  exp : Int
deriving DecidableEq, Repr

namespace decimal

/-- The two-argument minimum helper used by the decimal library
(`func min(x, y int32) int32 { if x >= y { return y }; return x }`). -/
def iMin (x y : Int) : Int := if x ≥ y then y else x

/-- Rescale `d` to exponent `e`.  Raising the exponent divides the
coefficient by a power of ten with `big.Int.Quo` (truncation toward zero);
lowering it multiplies, losslessly. -/
def rescale (d : Dec) (e : Int) : Dec :=
  if d.exp = e then d
  else if e > d.exp then ⟨Int.tdiv d.value ((10:Int) ^ (e - d.exp).natAbs), e⟩
  else ⟨d.value * (10:Int) ^ (e - d.exp).natAbs, e⟩

/-- Bring two decimals to the common (smaller) exponent, as
`decimal.RescalePair` does: only the operand whose exponent differs from
the minimum is rescaled. -/
def RescalePair (a b : Dec) : Dec × Dec :=
  if a.exp = b.exp then (a, b)
  else
    let m := iMin a.exp b.exp
    if m ≠ a.exp then (rescale a m, b) else (a, rescale b m)

/-- Exact decimal addition: rescale to the common exponent, add coefficients. -/
def Add (a b : Dec) : Dec :=
  let p := RescalePair a b
  ⟨p.1.value + p.2.value, p.1.exp⟩

/-- Exact decimal subtraction. -/
def Sub (a b : Dec) : Dec :=
  let p := RescalePair a b
  ⟨p.1.value - p.2.value, p.1.exp⟩

/-- Exact decimal multiplication: coefficients multiply, exponents add. -/
def Mul (a b : Dec) : Dec := ⟨a.value * b.value, a.exp + b.exp⟩

/-- Absolute value. -/
def Abs (d : Dec) : Dec := ⟨|d.value|, d.exp⟩

/-- Three-way comparison (−1, 0, 1), mirroring `Decimal.Cmp`: rescale to a
common exponent and compare coefficients. -/
def Cmp (a b : Dec) : Int :=
  let p := RescalePair a b
  if p.1.value < p.2.value then -1 else if p.1.value = p.2.value then 0 else 1

/-- The constructor `decimal.New(value, exp)`. -/
def New (v e : Int) : Dec := ⟨v, e⟩

/-- Division with remainder at a given precision, as `Decimal.QuoRem`:
the quotient has exponent `-precision`; the underlying `big.Int.QuoRem`
truncates toward zero.  A zero divisor is a failure (the library panics). -/
def QuoRem (d d2 : Dec) (precision : Int) : Option (Dec × Dec) :=
  if d2.value = 0 then none
  else
    let scale := -precision
    let e := d.exp - d2.exp - scale
    if e < 0 then
      let bb := d2.value * (10:Int) ^ (-e).natAbs
      some (⟨Int.tdiv d.value bb, scale⟩, ⟨Int.tmod d.value bb, d.exp⟩)
    else
      let aa := d.value * (10:Int) ^ e.natAbs
      some (⟨Int.tdiv aa d2.value, scale⟩, ⟨Int.tmod aa d2.value, scale + d2.exp⟩)

/-- Integer sign. -/
def isign (n : Int) : Int := if n < 0 then -1 else if n = 0 then 0 else 1

/-- Division rounded to `precision` fractional digits, as `Decimal.DivRound`:
compute the truncated quotient and remainder, then round half away from zero
by comparing twice the remainder with the divisor. -/
def DivRound (d d2 : Dec) (precision : Int) : Option Dec :=
  (QuoRem d d2 precision).map fun qr =>
    let q := qr.1
    let r := qr.2
    let r2 : Dec := ⟨|r.value| * 2, r.exp + precision⟩
    if Cmp r2 (Abs d2) < 0 then q
    else if isign d.value * isign d2.value < 0 then Sub q (New 1 (-precision))
    else Add q (New 1 (-precision))

/-- `Decimal.Div`, which divides at the library's default
`DivisionPrecision` of 16. -/
def DivDefault (d d2 : Dec) : Option Dec := DivRound d d2 16

/-- Rounding half away from zero to `places` fractional digits, following
`Decimal.Round`: rescale to one extra digit, add (or subtract) 5, divide by
ten with Euclidean `big.Int.DivMod`, and correct negative values with a
nonzero remainder toward zero. -/
def Round (d : Dec) (places : Int) : Dec :=
  if d.exp = -places then d
  else
    let ret := rescale d (-places - 1)
    let v := if ret.value < 0 then ret.value - 5 else ret.value + 5
    let q := Int.ediv v 10
    let m := Int.emod v 10
    ⟨if q < 0 ∧ m ≠ 0 then q + 1 else q, -places⟩

/-- Banker's rounding (half to even), following `Decimal.RoundBank`: round
half away from zero, and when the discarded part was exactly one half and
the resulting last digit is odd, pull the result back by one unit. -/
def RoundBank (d : Dec) (places : Int) : Dec :=
  let round := Round d places
  let remainder := Abs (Sub d round)
  let half := New 5 (-places - 1)
  if Cmp remainder half = 0 ∧ Int.emod round.value 2 ≠ 0 then
    ⟨if round.value < 0 then round.value + 1 else round.value - 1, round.exp⟩
  else round

/-- Truncation toward zero to `precision` fractional digits, following
`Decimal.Truncate`: only rescales when it actually drops digits. -/
def Truncate (d : Dec) (precision : Int) : Dec :=
  if precision ≥ 0 ∧ -precision > d.exp then rescale d (-precision) else d

/-- Strip the trailing decimal zeros of a nonzero coefficient, moving them
into the exponent; the fuel is an upper bound on the digit count. -/
def stripZerosAux : Nat → Int → Int → Dec
  | 0, m, e => ⟨m, e⟩
  | n + 1, m, e =>
      if Int.emod m 10 = 0 ∧ m ≠ 0 then stripZerosAux n (Int.ediv m 10) (e + 1)
      else ⟨m, e⟩

/-- Modelled from the spec: the float64 constructor `decimal.NewFromFloat`
lives in the shopspring library, outside this repository's sources.  Its
contract is to produce the shortest decimal digit string that round-trips
to the given 64-bit float — the repository's own tests pin this behavior
(`Add(0.1, 0.2).Clean().ToString() == "0.3"` and the `"1.00"` chain test
only hold with shortest digits, not with the float's exact binary
expansion).  A float argument is therefore modelled by the decimal literal
`m * 10^e` it was written as; for every literal of at most fifteen
significant digits (all literals appearing in the repository and its spec)
the shortest round-trip digits are the literal's own significant digits,
i.e. the literal with trailing zeros stripped.  Zero maps to
`New(0, 1)` exactly as in the library. -/
def NewFromFloat (m e : Int) : Dec :=
  if m = 0 then ⟨0, 1⟩ else stripZerosAux m.natAbs m e

end decimal

namespace decimal

/-- Drop the trailing `'0'` characters of a fractional digit string, as the
renderer's trimming loop does. -/
def dropTrailingZeroChars (l : List Char) : List Char :=
  (l.reverse.dropWhile (fun c => c = '0')).reverse

/-- Character-level decimal rendering, following `Decimal.string(trim)`:
a non-negative exponent renders the rescaled integer; a negative exponent
splits the coefficient's digit string into integer and fractional parts,
zero-padding on the left when the coefficient is short, optionally trimming
trailing fractional zeros, and prefixing the sign of the coefficient. -/
def stringChars (d : Dec) (trim : Bool) : List Char :=
  if d.exp ≥ 0 then
    let r := rescale d 0
    (if r.value < 0 then ['-'] else []) ++ Nat.toDigits 10 r.value.natAbs
  else
    let str := Nat.toDigits 10 d.value.natAbs
    let n := (-d.exp).toNat
    let ip := if str.length > n then str.take (str.length - n) else ['0']
    let fp := if str.length > n then str.drop (str.length - n)
              else List.replicate (n - str.length) '0' ++ str
    let fp2 := if trim then dropTrailingZeroChars fp else fp
    let number := ip ++ (if fp2.length > 0 then '.' :: fp2 else [])
    if d.value < 0 then '-' :: number else number

/-- `Decimal.String()`: render with trailing fractional zeros trimmed. -/
def stringTrim (d : Dec) : String := String.mk (stringChars d true)

/-- `Decimal.StringFixed(places)`: round half away from zero to `places`
digits and render without trimming. -/
def StringFixed (d : Dec) (places : Int) : String :=
  String.mk (stringChars (Round d places) false)

/-- `Decimal.StringFixedBank(places)`: banker's rounding, rendered without
trimming. -/
def StringFixedBank (d : Dec) (places : Int) : String :=
  String.mk (stringChars (RoundBank d places) false)

end decimal

/-- Split a character list at the first `'.'`, mirroring
`strings.Split(str, ".")` on strings containing at most one dot (the only
shape the decimal renderer produces). -/
def splitAtDot : List Char → List Char × Option (List Char)
  | [] => ([], none)
  | c :: rest =>
      if c = '.' then ([], some rest)
      else
        let p := splitAtDot rest
        (c :: p.1, p.2)

/-- The thousands-grouping loop of `FormatMoney`: before the character at
index `i > 0`, when `(len - i) % 3 == 0`, a comma is written. -/
def groupThousands (l : List Char) : List Char :=
  (l.enum.map fun ic =>
    if ic.1 > 0 ∧ (l.length - ic.1) % 3 = 0 then [',', ic.2] else [ic.2]).flatten

/-- Shared tail of both `FormatMoney` implementations: split the rendered
string at the decimal point and group the integer part when it is longer
than three characters. -/
def moneyChars (s : List Char) : List Char :=
  let p := splitAtDot s
  let ip := p.1
  let dp := match p.2 with
    | some f => '.' :: f
    | none => []
  (if ip.length > 3 then groupThousands ip else ip) ++ dp

/-- Exact rational value of a decimal: `value * 10^exp`. -/
def qpow10 (e : Int) : ℚ :=
  if 0 ≤ e then (10:ℚ) ^ e.toNat else ((10:ℚ) ^ (-e).toNat)⁻¹

/-- The rational number denoted by a `Dec`. -/
def decToRat (d : Dec) : ℚ := (d.value : ℚ) * qpow10 d.exp

/-- The rational number denoted by a decimal literal `m * 10^e`. -/
def decLitToRat (m e : Int) : ℚ := (m : ℚ) * qpow10 e

/-- Round the fraction `a / b` (with `b > 0`) to the nearest integer, ties
to even — the IEEE-754 rounding used when a real number is converted to a
binary float. -/
def rneFrac (a b : Int) : Int :=
  let q := Int.ediv a b
  let r := Int.emod a b
  if 2 * r < b then q
  else if 2 * r > b then q + 1
  else if Int.emod q 2 = 0 then q else q + 1

/-- The exact rational value of the 64-bit binary float nearest to `a / b`,
given the normalization exponent `e` with `2^52 ≤ |a/b| * 2^e < 2^53`
(the normal range; see `f64expOK`).  The float's significand is the
nearest-even rounding of `(a/b) * 2^e` and its value is that significand
divided by `2^e`. -/
def f64val (a b : Int) (e : Nat) : ℚ := (rneFrac (a * 2 ^ e) b : ℚ) / 2 ^ e

/-- The side condition making `e` the right normalization exponent for the
float nearest `a / b`. -/
def f64expOK (a b : Int) (e : Nat) : Prop :=
  2 ^ 52 * b ≤ |a| * 2 ^ e ∧ |a| * 2 ^ e < 2 ^ 53 * b

/-- A Go float64 result that is either NaN or a numeric value. -/
inductive GoFloat where
  | nan : GoFloat
  | val : ℚ → GoFloat
deriving DecidableEq


namespace mathx

/-- `mathx.NewResult`: wrap `decimal.NewFromFloat` of a float argument
(given as the decimal literal `m * 10^e`). -/
def NewResult (m e : Int) : Dec := decimal.NewFromFloat m e

/-- Package-level `mathx.Add` on two float arguments. -/
def Add (am ae bm be : Int) : Dec :=
  decimal.Add (decimal.NewFromFloat am ae) (decimal.NewFromFloat bm be)

/-- Variant `mathx.AddSafe`: decimal addition with no float conversion. -/
def AddSafe (a b : Dec) : Dec := decimal.Add a b

/-- Package-level `mathx.Div`: rounded division of two float arguments;
`none` models the decimal library's division-by-zero panic surfacing to
the caller. -/
def Div (am ae bm be precision : Int) : Option Dec :=
  decimal.DivRound (decimal.NewFromFloat am ae) (decimal.NewFromFloat bm be) precision

/-- Package-level `mathx.Round` on a float argument. -/
def Round (m e places : Int) : Dec :=
  decimal.Round (decimal.NewFromFloat m e) places

/-- Package-level `mathx.Truncate` on a float argument.  A negative
precision takes the explicit branch of math.go: build the multiplier
`10^(-precision)` (computed by `math.Pow` and re-read by `NewFromFloat`,
which is exact for these powers), divide at the default precision,
truncate to zero places, and multiply back. -/
def Truncate (m e precision : Int) : Option Dec :=
  if precision < 0 then
    let multiplier := decimal.NewFromFloat ((10:Int) ^ (-precision).natAbs) 0
    (decimal.DivDefault (decimal.NewFromFloat m e) multiplier).map
      fun q => decimal.Mul (decimal.Truncate q 0) multiplier
  else some (decimal.Truncate (decimal.NewFromFloat m e) precision)

/-- Package-level `mathx.ToStringFixed` on a float argument. -/
def ToStringFixed (m e places : Int) : String :=
  decimal.StringFixed (decimal.NewFromFloat m e) places

/-- Package-level `mathx.ToStringBank` on a float argument. -/
def ToStringBank (m e places : Int) : String :=
  decimal.StringFixedBank (decimal.NewFromFloat m e) places

/-- Package-level `mathx.FormatMoney`: round, render with `Decimal.String()`
(which trims trailing fractional zeros), and insert thousands separators. -/
def FormatMoney (m e places : Int) : String :=
  String.mk (moneyChars
    (decimal.stringChars (decimal.Round (decimal.NewFromFloat m e) places) true))

end mathx

namespace Result

/-- Chainable `Result.Mul` with a float argument. -/
def Mul (r : Dec) (m e : Int) : Dec := decimal.Mul r (decimal.NewFromFloat m e)

/-- Chainable `Result.Div` with a float argument; `none` models the decimal
library's division-by-zero panic surfacing to the caller. -/
def Div (r : Dec) (m e precision : Int) : Option Dec :=
  decimal.DivRound r (decimal.NewFromFloat m e) precision

/-- Chainable `Result.Round`. -/
def Round (r : Dec) (places : Int) : Dec := decimal.Round r places

/-- Chainable `Result.ToStringFixed`. -/
def ToStringFixed (r : Dec) (places : Int) : String := decimal.StringFixed r places

/-- Chainable `Result.ToStringBank`. -/
def ToStringBank (r : Dec) (places : Int) : String := decimal.StringFixedBank r places

/-- Method `Result.FormatMoney`: round to `places`, render with
`StringFixed` (keeping exactly `places` fractional digits), and insert
thousands separators. -/
def FormatMoney (r : Dec) (places : Int) : String :=
  String.mk (moneyChars
    (decimal.stringChars (decimal.Round (decimal.Round r places) places) false))

end Result

/-- The smallest power of ten a denominator divides, searched up to `10^63`
(every value arising in the library's bounded square-root iteration is a
decimal fraction well inside this range). -/
def decScaleOf (d : Nat) : Nat :=
  (((List.range 64).find? (fun k => (10:Nat) ^ k % d = 0)).getD 0)

/-- The decimal representation of a rational whose denominator divides a
power of ten.  This is the float-to-decimal conversion applied to the
intermediate values of the square-root iteration: every such value is a
decimal fraction, and the float64 round-trips the Go code performs on them
are modelled as exact (the round-trip error is a property of machine
floats, outside the repository's sources; no claim depends on these
digits). -/
def decOfQ (q : ℚ) : Dec :=
  let k := decScaleOf q.den
  ⟨Int.ediv (q.num * (10:Int) ^ k) (q.den : Int), -(k : Int)⟩

namespace mathx

/-- One Newton step of math.go's `Sqrt` loop:
`guess = Div(Add(guess, Div(value, guess, 10).Float64()).Float64(), 2, 10).Float64()`.
`Add` is exact decimal addition, so the inner sum is `g + x`; the two
`Div` calls round to ten places; `none` propagates the decimal library's
division-by-zero panic. -/
def sqrtStep (v g : ℚ) : Option ℚ :=
  (decimal.DivRound (decOfQ v) (decOfQ g) 10).bind fun d1 =>
    (decimal.DivRound (decOfQ (g + decToRat d1)) (decOfQ 2) 10).map decToRat

/-- The fixed ten-iteration Newton loop of math.go's `Sqrt`. -/
def sqrtLoop : Nat → ℚ → ℚ → Option ℚ
  | 0, _, g => some g
  | n + 1, v, g => (sqrtStep v g).bind fun g2 => sqrtLoop n v g2

/-- math.go's `Sqrt` on a float argument given as the literal `m * 10^e`:
a negative input returns the sentinel 0 immediately, zero returns 0, and a
positive input runs ten Newton iterations starting from `value / 2`. -/
def Sqrt (m e : Int) : Option ℚ :=
  let v := decLitToRat m e
  if v < 0 then some 0
  else if v = 0 then some 0
  else sqrtLoop 10 v (v / 2)

/-- A floor-based stand-in for the numeric branch of the platform square
root (its exact hardware rounding is a machine-float property no claim
depends on). -/
def sqrtApproxQ (v : ℚ) : ℚ := (Nat.sqrt (v.num.toNat * v.den) : ℚ) / (v.den : ℚ)

/-- Modelled from the spec: the variant file's `Sqrt` is
`func Sqrt(value float64) float64 { return math.Sqrt(value) }`, delegating
to the Go standard library's square root, which is outside this
repository's sources.  Its documented contract fixes the special cases:
`Sqrt(x < 0) = NaN`.  A negative argument therefore yields a NaN, not a
number; the non-negative branch carries a numeric approximation whose
exact digits no claim depends on. -/
def SqrtV3 (m e : Int) : GoFloat :=
  let v := decLitToRat m e
  if v < 0 then GoFloat.nan else GoFloat.val (sqrtApproxQ v)

end mathx

instance f64expOK_decidable (a b : Int) (e : Nat) : Decidable (f64expOK a b e) := by
  unfold f64expOK
  exact inferInstance

namespace decimal

theorem iMin_le_left (x y : Int) : iMin x y ≤ x := by
  unfold iMin; split <;> omega

theorem iMin_le_right (x y : Int) : iMin x y ≤ y := by
  unfold iMin; split <;> omega

theorem iMin_comm (x y : Int) : iMin x y = iMin y x := by
  unfold iMin; split_ifs <;> omega

theorem iMin_assoc (x y z : Int) : iMin (iMin x y) z = iMin x (iMin y z) := by
  unfold iMin; split_ifs <;> omega

/-- The addition path in closed form: both coefficients scaled to the
common (minimum) exponent and added. -/
theorem add_eq (a b : Dec) :
    Add a b = ⟨a.value * (10:Int) ^ (a.exp - iMin a.exp b.exp).natAbs +
               b.value * (10:Int) ^ (b.exp - iMin a.exp b.exp).natAbs,
               iMin a.exp b.exp⟩ := by
  have hl := iMin_le_left a.exp b.exp
  have hr := iMin_le_right a.exp b.exp
  have hc : iMin a.exp b.exp = a.exp ∨ iMin a.exp b.exp = b.exp := by
    unfold iMin; split <;> simp
  unfold Add RescalePair rescale
  by_cases h : a.exp = b.exp
  · have h1 : iMin a.exp b.exp = a.exp := by unfold iMin; split <;> omega
    simp only [if_pos h, h1]
    have ha : (a.exp - a.exp).natAbs = 0 := by omega
    have hb : (b.exp - a.exp).natAbs = 0 := by omega
    simp [ha, hb, h]
  · simp only [if_neg h]
    by_cases h2 : iMin a.exp b.exp = a.exp
    · have hba : ¬ (iMin a.exp b.exp ≠ a.exp) := by simpa using h2
      simp only [if_neg hba, h2]
      have hne : ¬ (b.exp = a.exp) := fun hh => h hh.symm
      have hgt : ¬ (a.exp > b.exp) := by omega
      simp only [if_neg hne, if_neg hgt]
      have ha : (a.exp - a.exp).natAbs = 0 := by omega
      have hb : (a.exp - b.exp).natAbs = (b.exp - a.exp).natAbs := by omega
      simp [ha, hb, add_comm]
    · have hm : iMin a.exp b.exp = b.exp := by
        rcases hc with hh | hh
        · exact absurd hh h2
        · exact hh
      have hba : (iMin a.exp b.exp ≠ a.exp) := h2
      simp only [if_pos hba, hm]
      have hne : ¬ (a.exp = b.exp) := h
      have hgt : ¬ (b.exp > a.exp) := by omega
      simp only [if_neg hne, if_neg hgt]
      have hb : (b.exp - b.exp).natAbs = 0 := by omega
      have ha : (b.exp - a.exp).natAbs = (a.exp - b.exp).natAbs := by omega
      have hne2 : ¬ (b.exp = a.exp) := fun hh => h hh.symm
      simp [ha, hb, hne2]

theorem pow_split (x y z : Int) (h1 : z ≤ y) (h2 : y ≤ x) :
    (10:Int) ^ (x - y).natAbs * 10 ^ (y - z).natAbs = 10 ^ (x - z).natAbs := by
  rw [← pow_add]
  congr 1
  omega

/-- Decimal addition is exactly commutative, coefficient and exponent alike. -/
theorem Add_comm (a b : Dec) : Add a b = Add b a := by
  rw [add_eq, add_eq, iMin_comm b.exp a.exp]
  simp only [Dec.mk.injEq]
  exact ⟨add_comm _ _, trivial⟩

/-- Decimal addition is exactly associative: rescaling to the overall
minimum exponent is lossless, so both association orders produce the same
coefficient at the same exponent. -/
theorem Add_assoc (a b c : Dec) : Add (Add a b) c = Add a (Add b c) := by
  rw [add_eq a b, add_eq b c, add_eq, add_eq]
  dsimp only
  simp only [Dec.mk.injEq]
  have hassoc : iMin (iMin a.exp b.exp) c.exp = iMin a.exp (iMin b.exp c.exp) :=
    iMin_assoc a.exp b.exp c.exp
  refine ⟨?_, hassoc⟩
  rw [← hassoc]
  have h1 : iMin (iMin a.exp b.exp) c.exp ≤ iMin a.exp b.exp := iMin_le_left _ _
  have h2a : iMin a.exp b.exp ≤ a.exp := iMin_le_left _ _
  have h2b : iMin a.exp b.exp ≤ b.exp := iMin_le_right _ _
  have h4b : iMin b.exp c.exp ≤ b.exp := iMin_le_left _ _
  have h4c : iMin b.exp c.exp ≤ c.exp := iMin_le_right _ _
  have h5 : iMin (iMin a.exp b.exp) c.exp ≤ iMin b.exp c.exp := by
    rw [hassoc]; exact iMin_le_right _ _
  rw [add_mul, add_mul, mul_assoc, mul_assoc, mul_assoc, mul_assoc,
      pow_split a.exp (iMin a.exp b.exp) (iMin (iMin a.exp b.exp) c.exp) h1 h2a,
      pow_split b.exp (iMin a.exp b.exp) (iMin (iMin a.exp b.exp) c.exp) h1 h2b,
      pow_split b.exp (iMin b.exp c.exp) (iMin (iMin a.exp b.exp) c.exp) h5 h4b,
      pow_split c.exp (iMin b.exp c.exp) (iMin (iMin a.exp b.exp) c.exp) h5 h4c]
  ring

end decimal

theorem qpow10_add_one (e : Int) : qpow10 (e + 1) = 10 * qpow10 e := by
  unfold qpow10
  by_cases h : 0 ≤ e
  · rw [if_pos (by omega : (0:Int) ≤ e + 1), if_pos h,
        show (e + 1).toNat = e.toNat + 1 from by omega, pow_succ]
    ring
  · by_cases h2 : 0 ≤ e + 1
    · rw [if_pos h2, if_neg h, show (e + 1).toNat = 0 from by omega,
          show (-e).toNat = 1 from by omega]
      norm_num
    · rw [if_neg h2, if_neg h, show (-e).toNat = (-(e + 1)).toNat + 1 from by omega,
          pow_succ, mul_inv]
      field_simp

/-- Moving a factor of ten from the coefficient to the exponent does not
change the denoted rational. -/
theorem stripZerosAux_toRat (n : Nat) :
    ∀ m e : Int, decToRat (decimal.stripZerosAux n m e) = decLitToRat m e := by
  induction n with
  | zero => intro m e; rfl
  | succ k ih =>
      intro m e
      unfold decimal.stripZerosAux
      split_ifs with h
      · rw [ih]
        obtain ⟨c, hc⟩ := Int.dvd_of_emod_eq_zero h.1
        subst hc
        rw [show ((10:Int) * c).ediv 10 = c from Int.mul_ediv_cancel_left c (by norm_num)]
        unfold decLitToRat
        rw [qpow10_add_one]
        push_cast
        ring
      · rfl

/-- The float constructor preserves the literal's exact rational value:
the constructed decimal is the literal itself, not a perturbed binary
expansion. -/
theorem NewFromFloat_toRat (m e : Int) :
    decToRat (decimal.NewFromFloat m e) = decLitToRat m e := by
  unfold decimal.NewFromFloat
  split_ifs with h
  · subst h
    unfold decToRat decLitToRat
    simp
  · exact stripZerosAux_toRat _ m e

/-- The value of the binary float64 nearest to one tenth, as a rational. -/
theorem f64val_point_one : f64val 1 10 56 = 7205759403792794 / 72057594037927936 := by
  unfold f64val
  rw [show rneFrac (1 * 2 ^ 56) 10 = 7205759403792794 from by decide]
  norm_num

/-- C1: for every float64 dividend and every precision, the base division
`Div(a, 0, p)` — and the chainable `Result.Div` with a zero divisor — fails
(the decimal layer's division-by-zero panic, modelled as `none`) rather
than silently returning a value; the failure is surfaced to the caller. -/
theorem c1_div_by_zero_fails :
    (∀ am ae be p : Int, mathx.Div am ae 0 be p = none) ∧
    (∀ (r : Dec) (be p : Int), Result.Div r 0 be p = none) := by
  constructor
  · intro am ae be p
    simp [mathx.Div, decimal.DivRound, decimal.QuoRem, decimal.NewFromFloat]
  · intro r be p
    simp [Result.Div, decimal.DivRound, decimal.QuoRem, decimal.NewFromFloat]

/-- C2 (counterexample): constructing a decimal from the float 0.1 does not
yield the exact decimal expansion of its 64-bit binary value.  The binary
value of the double nearest one tenth is `7205759403792794 / 2^56`
(`f64val 1 10 56`, with `56` the valid normalization exponent), while the
constructed decimal is exactly one tenth. -/
theorem c2_exact_expansion_counterexample :
    f64expOK 1 10 56 ∧ decToRat (decimal.NewFromFloat 1 (-1)) ≠ f64val 1 10 56 := by
  refine ⟨by decide, ?_⟩
  have h : decimal.NewFromFloat 1 (-1) = ⟨1, -1⟩ := by decide
  rw [h, f64val_point_one]
  norm_num [decToRat, qpow10]

/-- C2 (amended): the float-argument constructors produce the shortest
round-trip decimal digits of the float, modelled as the literal's own
significant digits — the constructed decimal denotes exactly the literal's
rational value (so 0.1 constructs exactly one tenth), not the float's
exact binary expansion, from which it differs at 0.1. -/
theorem c2_from_float_shortest :
    (∀ m e : Int, decToRat (decimal.NewFromFloat m e) = decLitToRat m e) ∧
    f64expOK 1 10 56 ∧
    decToRat (decimal.NewFromFloat 1 (-1)) ≠ f64val 1 10 56 := by
  refine ⟨NewFromFloat_toRat, by decide, ?_⟩
  rw [NewFromFloat_toRat, f64val_point_one]
  norm_num [decLitToRat, qpow10]

/-- C3 (counterexample): the variant file's `Sqrt` (a delegation to the
platform square root) yields NaN on the negative input −4, not the zero
sentinel, so the sentinel policy does not hold in every source variant. -/
theorem c3_sqrt_negative_counterexample :
    mathx.SqrtV3 (-4) 0 = GoFloat.nan ∧ GoFloat.nan ≠ GoFloat.val 0 := by
  constructor
  · simp only [mathx.SqrtV3]
    rw [if_pos (by norm_num [decLitToRat, qpow10] : decLitToRat (-4) 0 < 0)]
  · decide

/-- C3 (amended): for every negative float input, math.go's `Sqrt` returns
the defined zero sentinel; the part_003 variant instead delegates to the
platform square root and returns NaN (a non-numeric result) there. -/
theorem c3_sqrt_negative_sentinel (m e : Int) (h : decLitToRat m e < 0) :
    mathx.Sqrt m e = some 0 ∧ mathx.SqrtV3 m e = GoFloat.nan := by
  constructor
  · simp only [mathx.Sqrt]
    rw [if_pos h]
  · simp only [mathx.SqrtV3]
    rw [if_pos h]

/-- C3 witness: the amended theorem applied at the concrete input −4. -/
theorem c3_sqrt_negative_sentinel_witness :
    decLitToRat (-4) 0 < 0 ∧ mathx.Sqrt (-4) 0 = some 0 ∧
    mathx.SqrtV3 (-4) 0 = GoFloat.nan := by
  have h : decLitToRat (-4) 0 < 0 := by norm_num [decLitToRat, qpow10]
  exact ⟨h, (c3_sqrt_negative_sentinel (-4) 0 h).1, (c3_sqrt_negative_sentinel (-4) 0 h).2⟩

/-- C4: the three grouping examples of the spec hold, but the claimed
"minus sign outside the grouped digits" fails whenever the integer part's
digit count is a positive multiple of three: both money formatters render
−123456.78 at 2 places as "-,123,456.78", a separator directly after the
sign, where the spec's rule demands "-123,456.78". -/
theorem c4_money_grouping_eval :
    mathx.FormatMoney 123456789 (-2) 2 = "1,234,567.89" ∧
    mathx.FormatMoney (-123456789) (-2) 2 = "-1,234,567.89" ∧
    mathx.FormatMoney 12345 (-2) 2 = "123.45" ∧
    mathx.FormatMoney (-12345678) (-2) 2 = "-,123,456.78" ∧
    Result.FormatMoney (mathx.NewResult (-12345678) (-2)) 2 = "-,123,456.78" ∧
    ("-,123,456.78" : String) ≠ "-123,456.78" := by
  decide

/-- C5: fixed rendering and banker's rendering genuinely disagree at a
half-way digit preceded by an even digit: 2.125 at 2 places renders as
"2.13" under half-away-from-zero and as "2.12" under half-to-even. -/
theorem c5_fixed_vs_bank_rounding :
    mathx.ToStringFixed 2125 (-3) 2 = "2.13" ∧
    mathx.ToStringBank 2125 (-3) 2 = "2.12" ∧
    mathx.ToStringFixed 2125 (-3) 2 ≠ mathx.ToStringBank 2125 (-3) 2 := by
  decide

/-- C6: rounding and truncation observably disagree at 3.145 with 2
places: `Round` yields 3.15 while `Truncate` yields 3.14. -/
theorem c6_round_vs_truncate :
    decToRat (mathx.Round 3145 (-3) 2) = 3.15 ∧
    (mathx.Truncate 3145 (-3) 2).map decToRat = some 3.14 ∧
    (3.15 : ℚ) ≠ 3.14 := by
  have h1 : mathx.Round 3145 (-3) 2 = ⟨315, -2⟩ := by decide
  have h2 : mathx.Truncate 3145 (-3) 2 = some ⟨314, -2⟩ := by decide
  rw [h1, h2]
  refine ⟨?_, ?_, by norm_num⟩
  · simp [decToRat, qpow10]
    norm_num
  · simp [decToRat, qpow10]
    norm_num

/-- C7: negative precision means a power of ten greater than one:
rounding and truncating 123.456 at −1 places both yield 120 (the
truncation path taking the explicit divide by ten, truncate to zero
places, multiply back branch). -/
theorem c7_negative_places :
    decToRat (mathx.Round 123456 (-3) (-1)) = 120 ∧
    (mathx.Truncate 123456 (-3) (-1)).map decToRat = some 120 := by
  have h1 : mathx.Round 123456 (-3) (-1) = ⟨12, 1⟩ := by decide
  have h2 : mathx.Truncate 123456 (-3) (-1) = some ⟨12, 1⟩ := by decide
  rw [h1, h2]
  constructor
  · simp [decToRat, qpow10]
    norm_num
  · simp [decToRat, qpow10]
    norm_num

/-- C8: the end-to-end chain `Add(0.1, 0.2).Mul(10).Div(3, 2).Round(2)`
renders as the string "1.00" (via the chain's fixed two-place rendering,
as in the repository's chainable example). -/
theorem c8_chain_renders_one :
    (Result.Div (Result.Mul (mathx.Add 1 (-1) 2 (-1)) 10 0) 3 0 2).map
      (fun r => Result.ToStringFixed (Result.Round r 2) 2) = some "1.00" := by
  decide

/-- C9: decimal addition is exactly commutative and associative, both on
raw decimal values (`AddSafe`) and on the float-argument entry point. -/
theorem c9_add_comm_assoc :
    (∀ a b : Dec, mathx.AddSafe a b = mathx.AddSafe b a) ∧
    (∀ a b c : Dec,
      mathx.AddSafe (mathx.AddSafe a b) c = mathx.AddSafe a (mathx.AddSafe b c)) ∧
    (∀ am ae bm be : Int, mathx.Add am ae bm be = mathx.Add bm be am ae) := by
  refine ⟨fun a b => decimal.Add_comm a b,
          fun a b c => decimal.Add_assoc a b c,
          fun am ae bm be => decimal.Add_comm _ _⟩

/-- C10: the two public money formatters diverge: on 12.5 at 2 places the
`Result` method (which renders with `StringFixed`) gives "12.50" while the
package-level function (which renders with the trimming `String()`) gives
"12.5". -/
theorem c10_format_money_divergence :
    Result.FormatMoney (mathx.NewResult 125 (-1)) 2 = "12.50" ∧
    mathx.FormatMoney 125 (-1) 2 = "12.5" ∧
    ("12.50" : String) ≠ "12.5" := by
  decide
